import Mathlib

/-!
Shallow embedding of `triton_activations/functions.py`.

The source is a collection of Triton GPU kernels.  Each kernel is launched
once per program id (`pid`) by a host-side dispatch loop; inside one
invocation it computes a block of offsets `pid * BLOCK_SIZE + [0, BLOCK_SIZE)`,
a mask `offsets < n_elements`, performs one masked vector load, applies the
elementwise activation formula, and performs one masked vector store.

Buffers are embedded as `List ℝ`; a masked vector load/store works on a
list of offsets and a list of booleans.  The implicit `tl.program_id(axis=0)`
of Triton is passed explicitly as the `pid` argument, and the host-side
dispatch loop (`launch`) folds the kernel over all program ids
`[0, cdiv n_elements BLOCK_SIZE)`, mirroring the grid computation
`triton.cdiv(n_elements, BLOCK_SIZE)` that Triton launchers use.
-/

namespace TritonActivations

/-- Embeds `tl.arange(0, B)`: the list of lane offsets of one block. -/
def tl_arange (B : Nat) : List Nat := List.range B

/-- Ceiling division `cdiv n B = ⌈n / B⌉`, the number of program ids the
host dispatch loop launches (Triton's `triton.cdiv`). -/
def cdiv (a b : Nat) : Nat := (a + b - 1) / b

/-- Modelled from the spec: the scalar semantics of the external `tl.load`
primitive for a single lane, which is not part of this repository.  Per the
spec's Masked I/O Adapter contract it returns the buffer element at
`globalIndex` when `valid`, else a deterministic neutral value (zero),
without touching memory outside bounds. -/
def loadLane (buf : List ℝ) (globalIndex : Nat) (valid : Bool) : ℝ :=
  if valid then buf.getD globalIndex 0 else 0

/-- Embeds the vectorized masked load `tl.load(ptr + offsets, mask=mask)`. -/
def tl_load (buf : List ℝ) (offsets : List Nat) (mask : List Bool) : List ℝ :=
  List.zipWith (loadLane buf) offsets mask

/-- Embeds the vectorized masked store
`tl.store(ptr + offsets, output, mask=mask)`: each valid lane writes its
value at its offset; invalid lanes write nothing. -/
def tl_store (buf : List ℝ) (offsets : List Nat) (vals : List ℝ) (mask : List Bool) :
    List ℝ :=
  (offsets.zip (vals.zip mask)).foldl
    (fun b t => if t.2.2 then b.set t.1 t.2.1 else b) buf

/-- Embeds `tanh_activation_kernel` (functions.py lines 8-20). -/
noncomputable def tanh_activation_kernel (x_ptr output_ptr : List ℝ)
    (n_elements pid BLOCK_SIZE : Nat) : List ℝ :=
  let block_start := pid * BLOCK_SIZE
  let offsets := (tl_arange BLOCK_SIZE).map (fun i => block_start + i)
  let mask := offsets.map (fun o => decide (o < n_elements))
  let x := tl_load x_ptr offsets mask
  let output := x.map (fun v => Real.tanh v)
  tl_store output_ptr offsets output mask

/-- Embeds `relu_activation_kernel` (functions.py lines 23-37):
`output = tl.maximum(0, x)`. -/
def relu_activation_kernel (x_ptr output_ptr : List ℝ)
    (n_elements pid BLOCK_SIZE : Nat) : List ℝ :=
  let block_start := pid * BLOCK_SIZE
  let offsets := (tl_arange BLOCK_SIZE).map (fun i => block_start + i)
  let mask := offsets.map (fun o => decide (o < n_elements))
  let x := tl_load x_ptr offsets mask
  let output := x.map (fun v => max 0 v)
  tl_store output_ptr offsets output mask

/-- Embeds `softplus_activation_kernel` (functions.py lines 40-54):
`output = tl.log(1 + tl.exp(x))`. -/
noncomputable def softplus_activation_kernel (x_ptr output_ptr : List ℝ)
    (n_elements pid BLOCK_SIZE : Nat) : List ℝ :=
  let block_start := pid * BLOCK_SIZE
  let offsets := (tl_arange BLOCK_SIZE).map (fun i => block_start + i)
  let mask := offsets.map (fun o => decide (o < n_elements))
  let x := tl_load x_ptr offsets mask
  let output := x.map (fun v => Real.log (1 + Real.exp v))
  tl_store output_ptr offsets output mask

/-- Embeds `softsign_activation_kernel` (functions.py lines 57-71):
`output = x / (tl.libdevice.abs(x) + 1)`. -/
noncomputable def softsign_activation_kernel (x_ptr output_ptr : List ℝ)
    (n_elements pid BLOCK_SIZE : Nat) : List ℝ :=
  let block_start := pid * BLOCK_SIZE
  let offsets := (tl_arange BLOCK_SIZE).map (fun i => block_start + i)
  let mask := offsets.map (fun o => decide (o < n_elements))
  let x := tl_load x_ptr offsets mask
  let output := x.map (fun v => v / (|v| + 1))
  tl_store output_ptr offsets output mask

/-- Embeds `sigmoid_activation_kernel` (functions.py lines 74-88):
`output = 1 / (1 + tl.exp(-x))`. -/
noncomputable def sigmoid_activation_kernel (x_ptr output_ptr : List ℝ)
    (n_elements pid BLOCK_SIZE : Nat) : List ℝ :=
  let block_start := pid * BLOCK_SIZE
  let offsets := (tl_arange BLOCK_SIZE).map (fun i => block_start + i)
  let mask := offsets.map (fun o => decide (o < n_elements))
  let x := tl_load x_ptr offsets mask
  let output := x.map (fun v => 1 / (1 + Real.exp (-v)))
  tl_store output_ptr offsets output mask

/-- Embeds `silu_activation_kernel` (functions.py lines 91-105):
`output = x * (1 / (1 + tl.exp(-x)))`. -/
noncomputable def silu_activation_kernel (x_ptr output_ptr : List ℝ)
    (n_elements pid BLOCK_SIZE : Nat) : List ℝ :=
  let block_start := pid * BLOCK_SIZE
  let offsets := (tl_arange BLOCK_SIZE).map (fun i => block_start + i)
  let mask := offsets.map (fun o => decide (o < n_elements))
  let x := tl_load x_ptr offsets mask
  let output := x.map (fun v => v * (1 / (1 + Real.exp (-v))))
  tl_store output_ptr offsets output mask

/-- Modelled from the spec: the external `tl.libdevice.erf` function called by
the exact GELU path is not part of this repository; it is embedded as the
standard Gauss error function. -/
noncomputable def erf (x : ℝ) : ℝ :=
  2 / Real.sqrt Real.pi * ∫ t in (0:ℝ)..x, Real.exp (-t ^ 2)

/-- Embeds `gelu_activation_kernel` (functions.py lines 108-131).  The python
source branches on the scalar parameter `approximation`; each branch performs
its own masked store of its formula.  The literal `3.141592653589793` stands
for pi exactly as written in the source. -/
noncomputable def gelu_activation_kernel (x_ptr output_ptr : List ℝ)
    (approximation : Bool) (n_elements pid BLOCK_SIZE : Nat) : List ℝ :=
  let block_start := pid * BLOCK_SIZE
  let offsets := (tl_arange BLOCK_SIZE).map (fun i => block_start + i)
  let mask := offsets.map (fun o => decide (o < n_elements))
  let x := tl_load x_ptr offsets mask
  if approximation = true then
    let output := x.map (fun v =>
      0.5 * v * (1 + Real.tanh (Real.sqrt (2.0 / 3.141592653589793) *
        (v + 0.044715 * v * v * v))))
    tl_store output_ptr offsets output mask
  else
    let output := x.map (fun v => v * 0.5 * (1.0 + erf (v / Real.sqrt 2.0)))
    tl_store output_ptr offsets output mask

/-- Embeds `softmax_activation_kernel` (functions.py lines 134-152).
`tl.libdevice.max(x, axis_ld)` is the elementwise two-argument maximum of the
lane vector `x` and the scalar `axis_ld`, broadcast across lanes; the
in-place updates of the python source are expressed by successive lets. -/
noncomputable def softmax_activation_kernel (x_ptr output_ptr : List ℝ) (axis_ld : ℝ)
    (n_elements pid BLOCK_SIZE : Nat) : List ℝ :=
  let block_start := pid * BLOCK_SIZE
  let offsets := (tl_arange BLOCK_SIZE).map (fun i => block_start + i)
  let mask := offsets.map (fun o => decide (o < n_elements))
  let x := tl_load x_ptr offsets mask
  let max_x := x.map (fun v => max v axis_ld)
  let x2 := List.zipWith (fun v m => v - m) x max_x
  let exp_x := x2.map (fun v => Real.exp v)
  let sum_exp_x := exp_x.map (fun e => e + axis_ld)
  let output := List.zipWith (fun e s => e / s) exp_x sum_exp_x
  tl_store output_ptr offsets output mask

/-- Host-side dispatch loop: launches the kernel once for every program id in
`[0, cdiv n_elements BLOCK_SIZE)`, threading the output buffer through. -/
def launch (kernel : List ℝ → List ℝ → Nat → Nat → Nat → List ℝ)
    (x_ptr output_ptr : List ℝ) (n_elements BLOCK_SIZE : Nat) : List ℝ :=
  (List.range (cdiv n_elements BLOCK_SIZE)).foldl
    (fun out pid => kernel x_ptr out n_elements pid BLOCK_SIZE) output_ptr

/-- The closed enumeration of activation kinds exposed by the module; GELU
carries its approximation flag and Softmax its `axis_ld` scalar. -/
inductive ActivationKind where
  | tanh | relu | softplus | softsign | sigmoid | silu
  | gelu (approximation : Bool)
  | softmax (axis_ld : ℝ)

/-- The kernel implementing each activation kind. -/
noncomputable def kernelOf : ActivationKind →
    List ℝ → List ℝ → Nat → Nat → Nat → List ℝ
  | .tanh => tanh_activation_kernel
  | .relu => relu_activation_kernel
  | .softplus => softplus_activation_kernel
  | .softsign => softsign_activation_kernel
  | .sigmoid => sigmoid_activation_kernel
  | .silu => silu_activation_kernel
  | .gelu approximation => fun x out n pid b =>
      gelu_activation_kernel x out approximation n pid b
  | .softmax axis_ld => fun x out n pid b =>
      softmax_activation_kernel x out axis_ld n pid b

/-- One complete evaluation call: the host allocates a fresh zero output
buffer of the input's length and runs the dispatch loop over all units. -/
noncomputable def evaluate (kind : ActivationKind) (x_ptr : List ℝ)
    (BLOCK_SIZE : Nat) : List ℝ :=
  launch (kernelOf kind) x_ptr (List.replicate x_ptr.length 0)
    x_ptr.length BLOCK_SIZE

/-- The offsets computed by every kernel from its program id:
`block_start + tl.arange(0, BLOCK_SIZE)` with `block_start = pid * BLOCK_SIZE`
(functions.py lines 13-15). -/
def offsetsOf (pid BLOCK_SIZE : Nat) : List Nat :=
  (tl_arange BLOCK_SIZE).map (fun i => pid * BLOCK_SIZE + i)

/-- The per-lane validity mask computed by every kernel:
`mask = offsets < n_elements` (functions.py line 16). -/
def maskOf (pid BLOCK_SIZE n_elements : Nat) : List Bool :=
  (offsetsOf pid BLOCK_SIZE).map (fun o => decide (o < n_elements))

/-- The buffer indices one kernel invocation actually touches (both its
masked load and its masked store): the offsets whose mask is set. -/
def accessedOffsets (pid BLOCK_SIZE n_elements : Nat) : List Nat :=
  (offsetsOf pid BLOCK_SIZE).filter (fun o => decide (o < n_elements))

/-- All buffer indices accessed across the whole dispatch loop, in launch
order. -/
def allAccessedOffsets (n_elements BLOCK_SIZE : Nat) : List Nat :=
  (List.range (cdiv n_elements BLOCK_SIZE)).flatMap
    (fun pid => accessedOffsets pid BLOCK_SIZE n_elements)

/-- Generic shape shared by all the elementwise kernels: masked load, map the
lane function, masked store. -/
def elementwiseKernel (f : ℝ → ℝ) (x_ptr output_ptr : List ℝ)
    (n_elements pid BLOCK_SIZE : Nat) : List ℝ :=
  let offsets := (tl_arange BLOCK_SIZE).map (fun i => pid * BLOCK_SIZE + i)
  let mask := offsets.map (fun o => decide (o < n_elements))
  tl_store output_ptr offsets ((tl_load x_ptr offsets mask).map f) mask

/-- The per-lane formula of the sigmoid kernel (functions.py line 87). -/
noncomputable def sigmoid_output (x : ℝ) : ℝ := 1 / (1 + Real.exp (-x))

/-- The per-lane formula of the SiLU kernel (functions.py line 104). -/
noncomputable def silu_output (x : ℝ) : ℝ := x * (1 / (1 + Real.exp (-x)))

/-- The per-lane formula of the approximate GELU branch (functions.py
line 127). -/
noncomputable def gelu_tanh_output (x : ℝ) : ℝ :=
  0.5 * x * (1 + Real.tanh (Real.sqrt (2.0 / 3.141592653589793) *
    (x + 0.044715 * x * x * x)))

/-- The per-lane formula of the exact GELU branch (functions.py line 130). -/
noncomputable def gelu_erf_output (x : ℝ) : ℝ :=
  x * 0.5 * (1.0 + erf (x / Real.sqrt 2.0))

/-- The per-lane formula of the softmax kernel (functions.py lines 147-151):
the kernel's `max` is the elementwise two-argument maximum of the lane value
and the scalar `axis_ld`, and its denominator adds the scalar `axis_ld`. -/
noncomputable def softmax_output (axis_ld : ℝ) (x : ℝ) : ℝ :=
  Real.exp (x - max x axis_ld) / (Real.exp (x - max x axis_ld) + axis_ld)

/-- Proof-infrastructure view of one kernel invocation: walk the offset list
in order and, for each in-bounds offset, overwrite that output cell with the
lane function of the loaded input cell. -/
def writeSeq (f : ℝ → ℝ) (x_ptr : List ℝ) (n_elements : Nat)
    (idxs : List Nat) (out : List ℝ) : List ℝ :=
  idxs.foldl
    (fun o idx => if idx < n_elements then o.set idx (f (x_ptr.getD idx 0)) else o)
    out

theorem tl_store_cons (buf : List ℝ) (o : Nat) (offs : List Nat) (v : ℝ)
    (vs : List ℝ) (m : Bool) (ms : List Bool) :
    tl_store buf (o :: offs) (v :: vs) (m :: ms) =
      tl_store (if m then buf.set o v else buf) offs vs ms := rfl

theorem tl_load_cons (buf : List ℝ) (o : Nat) (offs : List Nat) (m : Bool)
    (ms : List Bool) :
    tl_load buf (o :: offs) (m :: ms) = loadLane buf o m :: tl_load buf offs ms := rfl

theorem writeSeq_cons (f : ℝ → ℝ) (x_ptr : List ℝ) (n_elements : Nat)
    (o : Nat) (idxs : List Nat) (out : List ℝ) :
    writeSeq f x_ptr n_elements (o :: idxs) out =
      writeSeq f x_ptr n_elements idxs
        (if o < n_elements then out.set o (f (x_ptr.getD o 0)) else out) := by
  unfold writeSeq
  simp only [List.foldl_cons]

theorem store_load_eq_writeSeq (f : ℝ → ℝ) (x_ptr : List ℝ) (n_elements : Nat) :
    ∀ (L : List Nat) (out : List ℝ),
      tl_store out L
          ((tl_load x_ptr L (L.map (fun o => decide (o < n_elements)))).map f)
          (L.map (fun o => decide (o < n_elements))) =
        writeSeq f x_ptr n_elements L out := by
  intro L
  induction L with
  | nil => intro out; rfl
  | cons o L ih =>
    intro out
    rw [List.map_cons, tl_load_cons, List.map_cons, tl_store_cons, writeSeq_cons, ← ih]
    by_cases h : o < n_elements
    · simp [h, loadLane]
    · simp [h, loadLane]

theorem elementwiseKernel_eq_writeSeq (f : ℝ → ℝ) (x_ptr output_ptr : List ℝ)
    (n_elements pid BLOCK_SIZE : Nat) :
    elementwiseKernel f x_ptr output_ptr n_elements pid BLOCK_SIZE =
      writeSeq f x_ptr n_elements (offsetsOf pid BLOCK_SIZE) output_ptr := by
  unfold elementwiseKernel offsetsOf
  exact store_load_eq_writeSeq f x_ptr n_elements _ output_ptr

theorem map_const_aux (v : ℝ) (x : Option ℝ) :
    Option.map (Function.const ℝ v) x = Option.map (fun _ => v) x := rfl

theorem writeSeq_get? (f : ℝ → ℝ) (x_ptr : List ℝ) (n_elements : Nat) :
    ∀ (idxs : List Nat) (out : List ℝ) (k : Nat),
      (writeSeq f x_ptr n_elements idxs out)[k]? =
        if k ∈ idxs ∧ k < n_elements then
          out[k]?.map (fun _ => f (x_ptr.getD k 0))
        else out[k]? := by
  intro idxs
  induction idxs with
  | nil => intro out k; simp [writeSeq]
  | cons o idxs ih =>
    intro out k
    rw [writeSeq_cons, ih]
    by_cases ho : o < n_elements
    · by_cases hk : k = o
      · subst hk
        by_cases hmem : k ∈ idxs
        · simp [hmem, ho, List.getElem?_set_self', Option.map_map, map_const_aux]
          rfl
        · simp [hmem, ho, List.getElem?_set_self', Option.map_eq_map, map_const_aux]
      · have hset : ∀ v : ℝ, (out.set o v)[k]? = out[k]? :=
          fun v => List.getElem?_set_ne (fun h => hk h.symm)
        simp [hk, hset, ho, map_const_aux]
    · by_cases hk : k = o
      · subst hk
        simp [ho, map_const_aux]
      · simp [ho, hk, map_const_aux]

theorem tanh_kernel_eq_elementwise (x_ptr output_ptr : List ℝ)
    (n_elements pid BLOCK_SIZE : Nat) :
    tanh_activation_kernel x_ptr output_ptr n_elements pid BLOCK_SIZE =
      elementwiseKernel (fun v => Real.tanh v) x_ptr output_ptr
        n_elements pid BLOCK_SIZE := rfl

theorem relu_kernel_eq_elementwise (x_ptr output_ptr : List ℝ)
    (n_elements pid BLOCK_SIZE : Nat) :
    relu_activation_kernel x_ptr output_ptr n_elements pid BLOCK_SIZE =
      elementwiseKernel (fun v => max 0 v) x_ptr output_ptr
        n_elements pid BLOCK_SIZE := rfl

theorem softplus_kernel_eq_elementwise (x_ptr output_ptr : List ℝ)
    (n_elements pid BLOCK_SIZE : Nat) :
    softplus_activation_kernel x_ptr output_ptr n_elements pid BLOCK_SIZE =
      elementwiseKernel (fun v => Real.log (1 + Real.exp v)) x_ptr output_ptr
        n_elements pid BLOCK_SIZE := rfl

theorem softsign_kernel_eq_elementwise (x_ptr output_ptr : List ℝ)
    (n_elements pid BLOCK_SIZE : Nat) :
    softsign_activation_kernel x_ptr output_ptr n_elements pid BLOCK_SIZE =
      elementwiseKernel (fun v => v / (|v| + 1)) x_ptr output_ptr
        n_elements pid BLOCK_SIZE := rfl

theorem sigmoid_kernel_eq_elementwise (x_ptr output_ptr : List ℝ)
    (n_elements pid BLOCK_SIZE : Nat) :
    sigmoid_activation_kernel x_ptr output_ptr n_elements pid BLOCK_SIZE =
      elementwiseKernel sigmoid_output x_ptr output_ptr
        n_elements pid BLOCK_SIZE := rfl

theorem silu_kernel_eq_elementwise (x_ptr output_ptr : List ℝ)
    (n_elements pid BLOCK_SIZE : Nat) :
    silu_activation_kernel x_ptr output_ptr n_elements pid BLOCK_SIZE =
      elementwiseKernel silu_output x_ptr output_ptr
        n_elements pid BLOCK_SIZE := rfl

theorem gelu_kernel_eq_elementwise (x_ptr output_ptr : List ℝ)
    (approximation : Bool) (n_elements pid BLOCK_SIZE : Nat) :
    gelu_activation_kernel x_ptr output_ptr approximation n_elements pid BLOCK_SIZE =
      if approximation = true then
        elementwiseKernel gelu_tanh_output x_ptr output_ptr n_elements pid BLOCK_SIZE
      else
        elementwiseKernel gelu_erf_output x_ptr output_ptr n_elements pid BLOCK_SIZE := by
  cases approximation <;> rfl

theorem softmax_kernel_eq_elementwise (x_ptr output_ptr : List ℝ) (axis_ld : ℝ)
    (n_elements pid BLOCK_SIZE : Nat) :
    softmax_activation_kernel x_ptr output_ptr axis_ld n_elements pid BLOCK_SIZE =
      elementwiseKernel (softmax_output axis_ld) x_ptr output_ptr
        n_elements pid BLOCK_SIZE := by
  unfold softmax_activation_kernel elementwiseKernel softmax_output
  simp only [List.zipWith_map_right, List.zipWith_map_left, List.zipWith_same,
    List.map_map]
  rfl

theorem foldl_elementwise_get? (f : ℝ → ℝ) (x_ptr : List ℝ)
    (n_elements BLOCK_SIZE : Nat) :
    ∀ (pids : List Nat) (out : List ℝ) (k : Nat),
      (pids.foldl
          (fun o pid => elementwiseKernel f x_ptr o n_elements pid BLOCK_SIZE)
          out)[k]? =
        if (∃ pid ∈ pids, k ∈ offsetsOf pid BLOCK_SIZE) ∧ k < n_elements then
          out[k]?.map (fun _ => f (x_ptr.getD k 0))
        else out[k]? := by
  intro pids
  induction pids with
  | nil => intro out k; simp
  | cons p pids ih =>
    intro out k
    rw [List.foldl_cons, ih, elementwiseKernel_eq_writeSeq, writeSeq_get?]
    have hmemoff : k ∈ offsetsOf p BLOCK_SIZE ∨ k ∉ offsetsOf p BLOCK_SIZE :=
      em _
    by_cases hk : k < n_elements
    · by_cases hp : k ∈ offsetsOf p BLOCK_SIZE
      · by_cases hmem : ∃ pid ∈ pids, k ∈ offsetsOf pid BLOCK_SIZE
        · simp [hp, hk, hmem, Option.map_map]
          rfl
        · simp [hp, hk, hmem]
      · by_cases hmem : ∃ pid ∈ pids, k ∈ offsetsOf pid BLOCK_SIZE
        · simp [hp, hk, hmem]
        · simp [hp, hk, hmem]
    · simp [hk]

theorem le_cdiv_mul (n B : Nat) (hB : 0 < B) : n ≤ cdiv n B * B := by
  cases n with
  | zero => simp
  | succ m =>
    have h1 : cdiv (m + 1) B = m / B + 1 := by
      unfold cdiv
      rw [show m + 1 + B - 1 = m + B from by omega, Nat.add_div_right m hB]
    rw [h1, Nat.add_mul, one_mul]
    have h2 : m / B * B + m % B = m := by
      rw [mul_comm]; exact Nat.div_add_mod m B
    have h3 : m % B < B := Nat.mod_lt m hB
    linarith

theorem launch_elementwise_get? (f : ℝ → ℝ) (x_ptr out : List ℝ)
    (n_elements BLOCK_SIZE k : Nat) (hB : 0 < BLOCK_SIZE) (hk : k < n_elements) :
    (launch (elementwiseKernel f) x_ptr out n_elements BLOCK_SIZE)[k]? =
      out[k]?.map (fun _ => f (x_ptr.getD k 0)) := by
  unfold launch
  rw [foldl_elementwise_get?]
  have hex : ∃ pid ∈ List.range (cdiv n_elements BLOCK_SIZE),
      k ∈ offsetsOf pid BLOCK_SIZE := by
    refine ⟨k / BLOCK_SIZE, List.mem_range.mpr ?_, ?_⟩
    · exact (Nat.div_lt_iff_lt_mul hB).mpr
        (lt_of_lt_of_le hk (le_cdiv_mul n_elements BLOCK_SIZE hB))
    · unfold offsetsOf tl_arange
      refine List.mem_map.mpr
        ⟨k % BLOCK_SIZE, List.mem_range.mpr (Nat.mod_lt _ hB), ?_⟩
      rw [mul_comm]
      exact Nat.div_add_mod k BLOCK_SIZE
  exact if_pos ⟨hex, hk⟩

theorem flatMap_offsetsOf (B : Nat) :
    ∀ u : Nat, (List.range u).flatMap (fun pid => offsetsOf pid B) =
      List.range (u * B) := by
  intro u
  induction u with
  | zero => simp
  | succ u ih =>
    rw [List.range_succ, List.flatMap_append, ih, Nat.succ_mul, List.range_add]
    simp [offsetsOf, tl_arange]

theorem flatMap_filter (p : Nat → Bool) (f : Nat → List Nat) :
    ∀ l : List Nat, (l.flatMap f).filter p = l.flatMap (fun a => (f a).filter p) := by
  intro l
  induction l with
  | nil => simp
  | cons a l ih => simp [List.flatMap_cons, List.filter_append, ih]

theorem filter_range_lt (N M : Nat) (h : N ≤ M) :
    (List.range M).filter (fun o => decide (o < N)) = List.range N := by
  obtain ⟨d, rfl⟩ := Nat.exists_eq_add_of_le h
  rw [List.range_add, List.filter_append]
  have h1 : (List.range N).filter (fun o => decide (o < N)) = List.range N :=
    List.filter_eq_self.mpr (fun a ha => by simp [List.mem_range.mp ha])
  have h2 : ((List.range d).map (N + ·)).filter (fun o => decide (o < N)) = [] :=
    List.filter_eq_nil_iff.mpr (fun a ha => by
      obtain ⟨i, hi, rfl⟩ := List.mem_map.mp ha
      simp)
  rw [h1, h2, List.append_nil]

theorem allAccessedOffsets_eq_range (n_elements BLOCK_SIZE : Nat)
    (hB : 0 < BLOCK_SIZE) :
    allAccessedOffsets n_elements BLOCK_SIZE = List.range n_elements := by
  unfold allAccessedOffsets accessedOffsets
  rw [← flatMap_filter, flatMap_offsetsOf]
  exact filter_range_lt n_elements _ (le_cdiv_mul n_elements BLOCK_SIZE hB)

theorem writeSeq_congr_input (f : ℝ → ℝ) (x x' : List ℝ) (n_elements : Nat) :
    ∀ (idxs : List Nat) (out : List ℝ),
      (∀ j ∈ idxs, j < n_elements → x.getD j 0 = x'.getD j 0) →
      writeSeq f x n_elements idxs out = writeSeq f x' n_elements idxs out := by
  intro idxs
  induction idxs with
  | nil => intro out _; rfl
  | cons o idxs ih =>
    intro out h
    rw [writeSeq_cons, writeSeq_cons]
    by_cases ho : o < n_elements
    · rw [if_pos ho, if_pos ho, h o (List.mem_cons_self o idxs) ho]
      exact ih _ (fun j hj hjN => h j (List.mem_cons_of_mem o hj) hjN)
    · rw [if_neg ho, if_neg ho]
      exact ih _ (fun j hj hjN => h j (List.mem_cons_of_mem o hj) hjN)

theorem mem_offsetsOf (k pid BLOCK_SIZE : Nat) :
    k ∈ offsetsOf pid BLOCK_SIZE ↔
      pid * BLOCK_SIZE ≤ k ∧ k < pid * BLOCK_SIZE + BLOCK_SIZE := by
  unfold offsetsOf tl_arange
  constructor
  · intro h
    obtain ⟨i, hi, rfl⟩ := List.mem_map.mp h
    have := List.mem_range.mp hi
    omega
  · rintro ⟨h1, h2⟩
    exact List.mem_map.mpr
      ⟨k - pid * BLOCK_SIZE, List.mem_range.mpr (by omega), by omega⟩

theorem evaluate_softmax_get? (axis_ld : ℝ) (x_ptr : List ℝ) (BLOCK_SIZE i : Nat)
    (hB : 0 < BLOCK_SIZE) (hi : i < x_ptr.length) :
    (evaluate (.softmax axis_ld) x_ptr BLOCK_SIZE)[i]? =
      some (softmax_output axis_ld (x_ptr.getD i 0)) := by
  unfold evaluate
  have hker : kernelOf (.softmax axis_ld) =
      elementwiseKernel (softmax_output axis_ld) := by
    funext x out n pid b
    exact softmax_kernel_eq_elementwise x out axis_ld n pid b
  rw [hker, launch_elementwise_get? (softmax_output axis_ld) x_ptr
    (List.replicate x_ptr.length 0) x_ptr.length BLOCK_SIZE i hB hi]
  simp [List.getElem?_replicate, hi]

/-- C1: for every element count and positive block width, the unit ranges of
the dispatch loop jointly access exactly the indices `[0, n_elements)`: the
concatenation of all accessed offsets is literally `List.range n_elements`,
so every output index below `n_elements` is written exactly once and no index
at or beyond `n_elements` is ever accessed.  Moreover one kernel invocation
(tanh and relu cited by the claim) leaves every output cell outside its own
accessed offsets unchanged, and its result depends only on the input cells
among its accessed offsets — in particular the masked trailing lanes of a
partial last unit perform no access. -/
theorem claim_block_coverage (n_elements BLOCK_SIZE : Nat) (hB : 0 < BLOCK_SIZE) :
    allAccessedOffsets n_elements BLOCK_SIZE = List.range n_elements ∧
    (∀ j, j < n_elements →
      (allAccessedOffsets n_elements BLOCK_SIZE).count j = 1) ∧
    (∀ j ∈ allAccessedOffsets n_elements BLOCK_SIZE, j < n_elements) ∧
    (∀ (x_ptr output_ptr : List ℝ) (pid k : Nat),
      k ∉ accessedOffsets pid BLOCK_SIZE n_elements →
      (tanh_activation_kernel x_ptr output_ptr n_elements pid BLOCK_SIZE)[k]? =
          output_ptr[k]? ∧
        (relu_activation_kernel x_ptr output_ptr n_elements pid BLOCK_SIZE)[k]? =
          output_ptr[k]?) ∧
    (∀ (x_ptr x_ptr' output_ptr : List ℝ) (pid : Nat),
      (∀ j ∈ accessedOffsets pid BLOCK_SIZE n_elements,
        x_ptr.getD j 0 = x_ptr'.getD j 0) →
      tanh_activation_kernel x_ptr output_ptr n_elements pid BLOCK_SIZE =
          tanh_activation_kernel x_ptr' output_ptr n_elements pid BLOCK_SIZE ∧
        relu_activation_kernel x_ptr output_ptr n_elements pid BLOCK_SIZE =
          relu_activation_kernel x_ptr' output_ptr n_elements pid BLOCK_SIZE) := by
  have hrange := allAccessedOffsets_eq_range n_elements BLOCK_SIZE hB
  refine ⟨hrange, ?_, ?_, ?_, ?_⟩
  · intro j hj
    rw [hrange]
    exact List.count_eq_one_of_mem (List.nodup_range n_elements)
      (List.mem_range.mpr hj)
  · intro j hj
    rw [hrange] at hj
    exact List.mem_range.mp hj
  · intro x_ptr output_ptr pid k hk
    have hcond : ¬(k ∈ offsetsOf pid BLOCK_SIZE ∧ k < n_elements) := by
      rintro ⟨h1, h2⟩
      exact hk (List.mem_filter.mpr ⟨h1, by simpa using h2⟩)
    constructor
    · rw [tanh_kernel_eq_elementwise, elementwiseKernel_eq_writeSeq, writeSeq_get?,
        if_neg hcond]
    · rw [relu_kernel_eq_elementwise, elementwiseKernel_eq_writeSeq, writeSeq_get?,
        if_neg hcond]
  · intro x_ptr x_ptr' output_ptr pid h
    have h' : ∀ j ∈ offsetsOf pid BLOCK_SIZE, j < n_elements →
        x_ptr.getD j 0 = x_ptr'.getD j 0 := by
      intro j hj hjN
      exact h j (List.mem_filter.mpr ⟨hj, by simpa using hjN⟩)
    constructor
    · rw [tanh_kernel_eq_elementwise, tanh_kernel_eq_elementwise,
        elementwiseKernel_eq_writeSeq, elementwiseKernel_eq_writeSeq]
      exact writeSeq_congr_input _ _ _ _ _ _ h'
    · rw [relu_kernel_eq_elementwise, relu_kernel_eq_elementwise,
        elementwiseKernel_eq_writeSeq, elementwiseKernel_eq_writeSeq]
      exact writeSeq_congr_input _ _ _ _ _ _ h'

theorem claim_block_coverage_witness :
    0 < 8 ∧ allAccessedOffsets 10 8 = List.range 10 :=
  ⟨by decide, (claim_block_coverage 10 8 (by decide)).1⟩

/-- C2: at every valid lane, the softmax kernel writes
`exp(x - max) / (exp(x - max) + axis_ld)` where `max` is the kernel's own
`max_x = max(x, axis_ld)` and `axis_ld` is the scalar parameter passed to the
kernel — not a reduction-sum over the axis. -/
theorem claim_softmax_formula (axis_ld : ℝ) (x_ptr : List ℝ) (BLOCK_SIZE i : Nat)
    (hB : 0 < BLOCK_SIZE) (hi : i < x_ptr.length) :
    (evaluate (.softmax axis_ld) x_ptr BLOCK_SIZE)[i]? =
      some (Real.exp (x_ptr.getD i 0 - max (x_ptr.getD i 0) axis_ld) /
        (Real.exp (x_ptr.getD i 0 - max (x_ptr.getD i 0) axis_ld) + axis_ld)) :=
  evaluate_softmax_get? axis_ld x_ptr BLOCK_SIZE i hB hi

theorem claim_softmax_formula_witness :
    (evaluate (.softmax 1) [2, 3] 1)[0]? =
      some (Real.exp ((2:ℝ) - max 2 1) / (Real.exp ((2:ℝ) - max 2 1) + 1)) :=
  claim_softmax_formula 1 [2, 3] 1 0 (by decide) (by decide)

/-- C3: there is an input buffer, block width and `axis_ld` for which the
values the softmax kernel writes do not sum to 1 over the buffer: on input
`[0]` with `axis_ld = 1` the single output is `exp(-1)/(exp(-1)+1) < 1`. -/
theorem claim_softmax_sum_ne_one :
    ∃ (x_ptr : List ℝ) (BLOCK_SIZE : Nat) (axis_ld : ℝ),
      (evaluate (.softmax axis_ld) x_ptr BLOCK_SIZE).sum ≠ 1 := by
  refine ⟨[0], 1, 1, ?_⟩
  have hval : evaluate (.softmax 1) [0] 1 =
      [Real.exp (0 - max 0 1) / (Real.exp (0 - max 0 1) + 1)] := by
    norm_num [evaluate, kernelOf, launch, cdiv, softmax_activation_kernel, tl_arange,
      tl_load, tl_store, loadLane, List.range_succ, List.replicate_succ]
  rw [hval]
  have h0 : max (0:ℝ) 1 = 1 := max_eq_right (by norm_num)
  rw [h0]
  have he := Real.exp_pos (-1)
  have hlt : Real.exp (-1) / (Real.exp (-1) + 1) < 1 :=
    (div_lt_one (by linarith)).mpr (by linarith)
  simp only [List.sum_cons, List.sum_nil, add_zero]
  norm_num
  intro heq
  rw [heq] at hlt
  exact absurd hlt (by norm_num)

/-- C4: the masked lane load returns the buffer element at the global index
when the lane is valid, returns the deterministic neutral value zero when the
lane is invalid, and for an invalid lane its result does not depend on the
buffer at all (no out-of-bounds access). -/
theorem claim_masked_load (buffer : List ℝ) (globalIndex : Nat) (valid : Bool) :
    (valid = true → ∀ h : globalIndex < buffer.length,
      loadLane buffer globalIndex valid = buffer.get ⟨globalIndex, h⟩) ∧
    (valid = false → loadLane buffer globalIndex valid = 0) ∧
    (∀ buffer' : List ℝ, valid = false →
      loadLane buffer globalIndex valid = loadLane buffer' globalIndex valid) := by
  refine ⟨?_, ?_, ?_⟩
  · intro hv h
    subst hv
    simp [loadLane, List.getD_eq_getElem?_getD, List.getElem?_eq_getElem h]
  · intro hv
    subst hv
    simp [loadLane]
  · intro buffer' hv
    subst hv
    simp [loadLane]

theorem claim_masked_load_witness :
    loadLane [(3:ℝ)] 0 true = 3 ∧ loadLane [(3:ℝ)] 5 false = 0 :=
  ⟨((claim_masked_load [(3:ℝ)] 0 true).1 rfl (by decide)).trans rfl,
    (claim_masked_load [(3:ℝ)] 5 false).2.1 rfl⟩

/-- C5: the block partitioner produces `start = pid * BLOCK_SIZE`, lane `i`
owns global index `start + i`, the mask is exactly `start + i < n_elements`
(the kernels literally consume these offsets and mask), and for any
`pid ≥ cdiv n_elements BLOCK_SIZE` every lane of the unit is invalid. -/
theorem claim_block_partitioner (pid BLOCK_SIZE n_elements : Nat)
    (hB : 0 < BLOCK_SIZE) :
    (∀ i, i < BLOCK_SIZE →
      (offsetsOf pid BLOCK_SIZE)[i]? = some (pid * BLOCK_SIZE + i) ∧
      (maskOf pid BLOCK_SIZE n_elements)[i]? =
        some (decide (pid * BLOCK_SIZE + i < n_elements))) ∧
    (∀ (x_ptr output_ptr : List ℝ),
      tanh_activation_kernel x_ptr output_ptr n_elements pid BLOCK_SIZE =
        tl_store output_ptr (offsetsOf pid BLOCK_SIZE)
          ((tl_load x_ptr (offsetsOf pid BLOCK_SIZE)
            (maskOf pid BLOCK_SIZE n_elements)).map (fun v => Real.tanh v))
          (maskOf pid BLOCK_SIZE n_elements)) ∧
    (cdiv n_elements BLOCK_SIZE ≤ pid →
      ∀ b ∈ maskOf pid BLOCK_SIZE n_elements, b = false) := by
  refine ⟨?_, ?_, ?_⟩
  · intro i hi
    constructor
    · unfold offsetsOf tl_arange
      rw [List.getElem?_map, List.getElem?_range hi]
      rfl
    · unfold maskOf offsetsOf tl_arange
      rw [List.getElem?_map, List.getElem?_map, List.getElem?_range hi]
      rfl
  · intro x_ptr output_ptr
    rfl
  · intro hpid b hb
    unfold maskOf offsetsOf tl_arange at hb
    obtain ⟨o, ho, rfl⟩ := List.mem_map.mp hb
    obtain ⟨i, hi, rfl⟩ := List.mem_map.mp ho
    have h1 : n_elements ≤ cdiv n_elements BLOCK_SIZE * BLOCK_SIZE :=
      le_cdiv_mul n_elements BLOCK_SIZE hB
    have h2 : cdiv n_elements BLOCK_SIZE * BLOCK_SIZE ≤ pid * BLOCK_SIZE :=
      Nat.mul_le_mul_right BLOCK_SIZE hpid
    have h3 : n_elements ≤ pid * BLOCK_SIZE + i :=
      le_trans (le_trans h1 h2) (Nat.le_add_right _ _)
    exact decide_eq_false (not_lt.mpr h3)

theorem claim_block_partitioner_witness :
    0 < 4 ∧ (offsetsOf 1 4)[2]? = some 6 :=
  ⟨by decide, ((claim_block_partitioner 1 4 5 (by decide)).1 2 (by decide)).1⟩

/-- C6: the SiLU kernel is the elementwise kernel of `silu_output`, the
Sigmoid kernel is the elementwise kernel of `sigmoid_output`, and for every
input value the SiLU lane output equals the input times the Sigmoid lane
output. -/
theorem claim_silu_composes_sigmoid :
    (∀ (x_ptr output_ptr : List ℝ) (n_elements pid BLOCK_SIZE : Nat),
      silu_activation_kernel x_ptr output_ptr n_elements pid BLOCK_SIZE =
        elementwiseKernel silu_output x_ptr output_ptr n_elements pid BLOCK_SIZE) ∧
    (∀ (x_ptr output_ptr : List ℝ) (n_elements pid BLOCK_SIZE : Nat),
      sigmoid_activation_kernel x_ptr output_ptr n_elements pid BLOCK_SIZE =
        elementwiseKernel sigmoid_output x_ptr output_ptr n_elements pid
          BLOCK_SIZE) ∧
    (∀ x : ℝ, silu_output x = x * sigmoid_output x) :=
  ⟨fun _ _ _ _ _ => rfl, fun _ _ _ _ _ => rfl, fun _ => rfl⟩

/-- C7: on input `[-2, -1, 0, 1, 2]` with block width 4 the dispatch loop
launches two units; unit 0 owns offsets `[0, 4)` all valid, unit 1 owns
offsets `[4, 8)` with only its first lane valid (lanes 1-3 masked), and the
ReLU evaluation produces exactly `[0, 0, 0, 1, 2]`. -/
theorem claim_relu_concrete :
    cdiv 5 4 = 2 ∧
    offsetsOf 0 4 = [0, 1, 2, 3] ∧
    offsetsOf 1 4 = [4, 5, 6, 7] ∧
    maskOf 0 4 5 = [true, true, true, true] ∧
    maskOf 1 4 5 = [true, false, false, false] ∧
    evaluate .relu [-2, -1, 0, 1, 2] 4 = [0, 0, 0, 1, 2] := by
  refine ⟨by decide, by decide, by decide, by decide, by decide, ?_⟩
  norm_num [evaluate, kernelOf, launch, cdiv, relu_activation_kernel, tl_arange,
    tl_load, tl_store, loadLane, List.range_succ, max_def, List.replicate_succ]

/-- C8: the GELU kernel is, per invocation, a single branch on the scalar
`approximation` flag selecting one of two elementwise kernels — each of which
performs exactly one masked store — and at every valid in-range lane it
writes `0.5·x·(1 + tanh(√(2/π)·(x + 0.044715·x³)))` when the flag is true and
`x·0.5·(1 + erf(x/√2))` when it is false. -/
theorem claim_gelu_branch (approximation : Bool) (x_ptr output_ptr : List ℝ)
    (n_elements pid BLOCK_SIZE k : Nat) :
    (gelu_activation_kernel x_ptr output_ptr approximation n_elements pid
        BLOCK_SIZE =
      if approximation = true then
        elementwiseKernel gelu_tanh_output x_ptr output_ptr n_elements pid
          BLOCK_SIZE
      else
        elementwiseKernel gelu_erf_output x_ptr output_ptr n_elements pid
          BLOCK_SIZE) ∧
    (pid * BLOCK_SIZE ≤ k → k < pid * BLOCK_SIZE + BLOCK_SIZE →
      k < n_elements → k < output_ptr.length →
      (gelu_activation_kernel x_ptr output_ptr approximation n_elements pid
          BLOCK_SIZE)[k]? =
        some (if approximation = true then gelu_tanh_output (x_ptr.getD k 0)
          else gelu_erf_output (x_ptr.getD k 0))) := by
  refine ⟨gelu_kernel_eq_elementwise x_ptr output_ptr approximation n_elements
    pid BLOCK_SIZE, ?_⟩
  intro h1 h2 h3 h4
  have hmem : k ∈ offsetsOf pid BLOCK_SIZE :=
    (mem_offsetsOf k pid BLOCK_SIZE).mpr ⟨h1, h2⟩
  rw [gelu_kernel_eq_elementwise]
  cases approximation
  · rw [if_neg (by decide), if_neg (by decide), elementwiseKernel_eq_writeSeq,
      writeSeq_get?, if_pos ⟨hmem, h3⟩, List.getElem?_eq_getElem h4]
    rfl
  · rw [if_pos rfl, if_pos rfl, elementwiseKernel_eq_writeSeq,
      writeSeq_get?, if_pos ⟨hmem, h3⟩, List.getElem?_eq_getElem h4]
    rfl

theorem claim_gelu_branch_witness :
    (gelu_activation_kernel [1] [0] true 1 0 1)[0]? =
        some (gelu_tanh_output 1) ∧
      (gelu_activation_kernel [1] [0] false 1 0 1)[0]? =
        some (gelu_erf_output 1) :=
  ⟨(claim_gelu_branch true [1] [0] 1 0 1 0).2
      (by decide) (by decide) (by decide) (by decide),
    (claim_gelu_branch false [1] [0] 1 0 1 0).2
      (by decide) (by decide) (by decide) (by decide)⟩

/-- C9: a complete evaluation is a deterministic function of the activation
kind, configuration and input buffer: running it on equal input buffers
yields equal output buffers — there is no hidden state across calls. -/
theorem claim_evaluate_deterministic (kind : ActivationKind) (x₁ x₂ : List ℝ)
    (BLOCK_SIZE : Nat) (h : x₁ = x₂) :
    evaluate kind x₁ BLOCK_SIZE = evaluate kind x₂ BLOCK_SIZE := by
  rw [h]

theorem claim_evaluate_deterministic_witness :
    evaluate .relu [-1, 2] 4 = evaluate .relu [-1, 2] 4 :=
  claim_evaluate_deterministic .relu [-1, 2] [-1, 2] 4 rfl

/-- C10: each softmax output element depends only on the input element at the
same index (and the scalar `axis_ld`): for two same-length inputs agreeing at
a valid index, the softmax evaluation writes the same value there, because
the kernel's `max` is the elementwise two-argument maximum with `axis_ld`,
not a cross-lane reduction. -/
theorem claim_softmax_per_lane (axis_ld : ℝ) (x₁ x₂ : List ℝ)
    (BLOCK_SIZE i : Nat) (hB : 0 < BLOCK_SIZE) (hlen : x₁.length = x₂.length)
    (hi : i < x₁.length) (hagree : x₁.getD i 0 = x₂.getD i 0) :
    (evaluate (.softmax axis_ld) x₁ BLOCK_SIZE)[i]? =
      (evaluate (.softmax axis_ld) x₂ BLOCK_SIZE)[i]? := by
  rw [evaluate_softmax_get? axis_ld x₁ BLOCK_SIZE i hB hi,
    evaluate_softmax_get? axis_ld x₂ BLOCK_SIZE i hB (hlen ▸ hi), hagree]

theorem claim_softmax_per_lane_witness :
    (evaluate (.softmax 1) [0, 5] 1)[0]? =
      (evaluate (.softmax 1) [0, 7] 1)[0]? :=
  claim_softmax_per_lane 1 [0, 5] [0, 7] 1 0 (by decide) rfl (by decide) rfl

end TritonActivations
